import Mathlib

/-!
Verification of the manga-organizer repository (title extraction, zip
internal-folder renaming, and the conflict-checked move orchestration of
src/src/manga_organizer/file_operations.py, plus the legacy entry point
src/main.py).

Strings are modelled as lists of characters.  Python regular expressions
are embedded by their backtracking semantics: a dot matches any character
other than a newline, and the dollar anchor matches at the end of the
string or just before a single trailing newline.  The digit class is
modelled by Char.isDigit and Python str.strip by trimming the characters
satisfying Char.isWhitespace from both ends.
-/

set_option maxHeartbeats 1000000

namespace MangaOrganizer

abbrev Name := List Char

/-- Python str.strip with no arguments: remove whitespace from both ends. -/
def pyStrip (s : Name) : Name :=
  ((s.dropWhile Char.isWhitespace).reverse.dropWhile Char.isWhitespace).reverse

/-- The digit class of the patterns in main.py and file_operations.py. -/
def isDigitC (c : Char) : Bool := c.isDigit

/-- The run of characters a greedy dot-star consumes: the longest prefix
free of newlines. -/
def consumeDotStar (u : List Char) : List Char :=
  u.takeWhile (fun c => c != '\n')

/-- After the dot-star of the pattern, the dollar anchor is reachable iff
the remaining text contains no newline except possibly as its final
character. -/
def tailOK : List Char → Bool
  | [] => true
  | [_] => true
  | c :: rest => c != '\n' && tailOK rest

/-- The optional second group of the pattern in move_zip_file, attempted at
a fixed position: a 第 character, one or more digits, a 巻 character, and
then a greedy dot-star followed by the dollar anchor.  Returns the text the
group consumes when it matches (the value of match.group(2)). -/
def matchGroup2 (rest : List Char) : Option (List Char) :=
  match rest with
  | [] => none
  | c :: r1 =>
    if c = '第' then
      let ds := r1.takeWhile isDigitC
      if ds.isEmpty then none
      else
        match r1.dropWhile isDigitC with
        | [] => none
        | b :: u =>
          if b = '巻' then
            if tailOK u then some ('第' :: ds ++ '巻' :: consumeDotStar u)
            else none
          else none
    else none

/-- The backtracking loop of re.match on the pattern of move_zip_file line
64: the non-greedy one-or-more-dots group one grows one character at a
time; at each stop the engine first tries the optional marker group, then
the bare dollar anchor. -/
def reMatchFrom (g1rev : List Char) (rest : List Char) :
    Option (List Char × List Char) :=
  match matchGroup2 rest with
  | some g2 => some (g1rev.reverse, g2)
  | none =>
    match rest with
    | [] => some (g1rev.reverse, [])
    | c :: rest' =>
      if c = '\n' then
        if rest' = [] then some (g1rev.reverse, []) else none
      else reMatchFrom (c :: g1rev) rest'

/-- re.match of the title pattern of move_zip_file: group one must consume
at least one character starting at position zero. -/
def pyTitleMatch (s : List Char) : Option (List Char × List Char) :=
  match s with
  | [] => none
  | c :: rest => if c = '\n' then none else reMatchFrom [c] rest

/-- Lines 61-70 of file_operations.py: split the stem into book_title and
book_suffix.  On a match the title is the stripped first group and the
suffix the second group or the empty string; when the regex does not match
the stem is used unmodified with an empty suffix. -/
def extract_title (s : Name) : Name × Name :=
  match pyTitleMatch s with
  | some (g1, g2) => (pyStrip g1, g2)
  | none => (s, [])

/-- A match attempt of the pattern of main.py line 67 at a fixed position:
one or more digits (greedily), a 巻 character, then the dollar anchor.
Returns the number of characters the match spans. -/
def volEndMatchLen (l : List Char) : Option Nat :=
  let ds := l.takeWhile isDigitC
  if ds.isEmpty then none
  else
    match l.dropWhile isDigitC with
    | [] => none
    | b :: rest =>
      if b = '巻' then
        if rest = [] ∨ rest = ['\n'] then some (ds.length + 1) else none
      else none

/-- re.sub of the pattern of main.py line 67: delete the leftmost match of
one-or-more digits followed by 巻 at the end of the string. -/
def subVolEnd : List Char → List Char
  | [] => []
  | c :: rest =>
    match volEndMatchLen (c :: rest) with
    | some n => (c :: rest).drop n
    | none => c :: subVolEnd rest

/-- The title computed by the legacy sequential entry point, main.py lines
66-67: strip the trailing digits-巻 token and trim. -/
def main_book_title (s : Name) : Name := pyStrip (subVolEnd s)

/-- The title computed by move_zip_file, file_operations.py lines 61-70. -/
def move_book_title (s : Name) : Name := (extract_title s).1

/-! ## Zip archives and rename_folder_in_zip -/

/-- One member of a zip archive, at the granularity the code touches: its
path, the metadata fields the loop copies, and its stored bytes. -/
structure Entry where
  filename : Name
  date_time : Nat
  compress_type : Nat
  external_attr : Nat
  data : List Nat
deriving DecidableEq

/-- ZipInfo.is_dir: the stored path ends with a slash. -/
def isDirName (fn : Name) : Bool := decide (fn.getLast? = some '/')

/-- Python str.split on the slash separator. -/
def pySplit : List Char → List (List Char)
  | [] => [[]]
  | c :: rest =>
    if c = '/' then [] :: pySplit rest
    else
      match pySplit rest with
      | [] => [[c]]
      | p :: ps => (c :: p) :: ps

/-- Python str.join with the slash separator. -/
def pyJoin : List (List Char) → List Char
  | [] => []
  | [p] => p
  | p :: ps => p ++ '/' :: pyJoin ps

/-- Python str.rstrip with a slash argument. -/
def rstripSlash (fn : Name) : Name :=
  (fn.reverse.dropWhile (fun c => c == '/')).reverse

/-- Lines 24-32 of file_operations.py: the path of an entry after the
rename.  When the path contains a slash its first segment is replaced by
the new name; otherwise a directory entry with a nonempty stripped name
would be rewritten in place (an unreachable branch, kept faithfully). -/
def newEntryName (new_name fn : Name) : Name :=
  if '/' ∈ fn then
    let parts := pySplit fn
    if parts.length > 1 then pyJoin (new_name :: parts.tail) else fn
  else if isDirName fn && !(rstripSlash fn).isEmpty then new_name ++ ['/']
  else fn

/-- ZipFile.read by member name: the name-to-info table is built in entry
order with later entries overwriting earlier ones, so the bytes of the
last entry carrying that name are returned. -/
def zipRead (a : List Entry) (n : Name) : List Nat :=
  match (a.filter (fun e => decide (e.filename = n))).getLast? with
  | some e => e.data
  | none => []

/-- The body of the copy loop, lines 21-43: a fresh ZipInfo under the
rewritten path, with date_time and compress_type copied; a directory entry
keeps its external attributes and is written with empty data, any other
entry gets the default zero attributes and the bytes read back by its
original name. -/
def renameEntry (a : List Entry) (new_name : Name) (e : Entry) : Entry :=
  { filename := newEntryName new_name e.filename
  , date_time := e.date_time
  , compress_type := e.compress_type
  , external_attr := if isDirName e.filename then e.external_attr else 0
  , data := if isDirName e.filename then [] else zipRead a e.filename }

/-- The whole rewritten archive produced by the loop of
rename_folder_in_zip. -/
def renameArchive (new_name : Name) (a : List Entry) : List Entry :=
  a.map (renameEntry a new_name)

/-- The per-entry effect of the renamer once the read-back-by-name is
resolved: path rewritten, date and compression kept, external attributes
kept only for directory entries, data kept for file entries and emptied
for directory entries. -/
def simpleRename (nn : Name) (e : Entry) : Entry :=
  { filename := newEntryName nn e.filename
  , date_time := e.date_time
  , compress_type := e.compress_type
  , external_attr := if isDirName e.filename then e.external_attr else 0
  , data := if isDirName e.filename then [] else e.data }

/-- Content of a path on disk: a readable zip archive, or bytes that are
not a valid archive. -/
inductive FileContent
  | zip : List Entry → FileContent
  | junk : FileContent
deriving DecidableEq

/-- The two paths rename_folder_in_zip touches: the source archive and the
temporary file derived from it. -/
structure FState where
  src : Option FileContent
  tmp : Option FileContent
deriving DecidableEq

/-- The externally injected outcome of the filesystem interactions of
rename_folder_in_zip on a readable source: the destination directory may
refuse the temporary file, reading or writing entry i may fail, closing
the new archive may fail, or everything succeeds. -/
inductive RenameEvent
  | destNotWritable
  | errAt : Nat → RenameEvent
  | finalizeErr
  | ok
deriving DecidableEq

/-- Lines 11-56 of file_operations.py.  A missing or invalid source raises
before the temporary file holds the result; any failure lands in the
except handler, which deletes the temporary file and returns false with
the source untouched.  On success the source is unlinked and the temporary
file renamed onto its path. -/
def rename_folder_in_zip (new_name : Name) (s : FState) (ev : RenameEvent) :
    Bool × FState :=
  match s.src with
  | none => (false, { src := none, tmp := none })
  | some FileContent.junk => (false, { s with tmp := none })
  | some (FileContent.zip a) =>
    match ev with
    | RenameEvent.destNotWritable => (false, { s with tmp := none })
    | RenameEvent.errAt i =>
      if i < a.length then (false, { s with tmp := none })
      else (true, { src := some (FileContent.zip (renameArchive new_name a))
                  , tmp := none })
    | RenameEvent.finalizeErr => (false, { s with tmp := none })
    | RenameEvent.ok =>
      (true, { src := some (FileContent.zip (renameArchive new_name a))
             , tmp := none })

/-! ## The move orchestrator -/

/-- Does the haystack start with the needle. -/
def startsWith : Name → Name → Bool
  | _, [] => true
  | [], _ :: _ => false
  | c :: cs, d :: ds => c == d && startsWith cs ds

/-- The Python substring test used on line 84: needle in haystack. -/
def strContains (hay needle : Name) : Bool :=
  if startsWith hay needle then true
  else
    match hay with
    | [] => false
    | _ :: rest => strContains rest needle

/-- First-match lookup in a directory listing or a dict modelled as an
ordered association list. -/
def lookupName (fs : List (Name × FileContent)) (n : Name) :
    Option FileContent :=
  match fs with
  | [] => none
  | (m, c) :: rest => if m = n then some c else lookupName rest n

/-- Delete a path from a directory listing. -/
def removeName (fs : List (Name × FileContent)) (n : Name) :
    List (Name × FileContent) :=
  match fs with
  | [] => []
  | (m, c) :: rest =>
    if m = n then removeName rest n else (m, c) :: removeName rest n

/-- Path.exists on a directory listing. -/
def containsName (fs : List (Name × FileContent)) (n : Name) : Bool :=
  (lookupName fs n).isSome

/-- The bytes stored at a path, defaulting to junk for a missing file (the
theorems below always supply a presence hypothesis). -/
def getContent (fs : List (Name × FileContent)) (n : Name) : FileContent :=
  (lookupName fs n).getD FileContent.junk

/-- Path.rename inside one directory: the old path disappears and the new
path carries its bytes. -/
def renameFile (fs : List (Name × FileContent)) (old new : Name) :
    List (Name × FileContent) :=
  (new, getContent fs old) :: removeName (removeName fs old) new

/-- Overwrite the bytes stored at a path. -/
def setName (fs : List (Name × FileContent)) (n : Name) (c : FileContent) :
    List (Name × FileContent) :=
  (n, c) :: removeName fs n

/-- Lookup in the series-title dict, whose values are destination folder
identifiers. -/
def lookupKey (d : List (Name × Nat)) (k : Name) : Option Nat :=
  match d with
  | [] => none
  | (m, v) :: rest => if m = k then some v else lookupKey rest k

/-- Line 84: the ordered candidate keys in which the extracted title occurs
as a substring, in dict iteration order. -/
def matchingKeys (d : List (Name × Nat)) (t : Name) : List Name :=
  (d.filter (fun p => strContains p.1 t)).map Prod.fst

/-- The literal zip extension appended on lines 75 and 112. -/
def zipExt : Name := ".zip".toList

/-- The filesystem as move_zip_file sees it: the listing of the source
directory holding the archive, and the listing of every destination
folder, indexed by the identifiers stored in the dict. -/
structure World where
  src : List (Name × FileContent)
  dst : Nat → List (Name × FileContent)

/-- Lines 59-139 of file_operations.py.  The stem is split into title and
suffix; an exact dict hit moves the archive under its unchanged name
unless the destination already holds that name.  Otherwise the substring
candidates are collected; the dialog outcome is the accept flag, and both
dialog branches commit the first candidate.  On acceptance the archive is
renamed in place, its internal folder rewritten (best effort, driven by
the injected RenameEvent), and then either moved, or renamed back when the
destination already holds the new name. -/
def move_zip_file (stem : Name) (dict : List (Name × Nat)) (accept : Bool)
    (ev : RenameEvent) (w : World) : Bool × World :=
  let bt := (extract_title stem).1
  let bs := (extract_title stem).2
  let origName := stem ++ zipExt
  match lookupKey dict bt with
  | some d =>
    if containsName (w.dst d) origName then (false, w)
    else
      let c := getContent w.src origName
      (true, { src := removeName w.src origName
             , dst := fun j => if j = d then (origName, c) :: w.dst j else w.dst j })
  | none =>
    match matchingKeys dict bt with
    | [] => (false, w)
    | selKey :: _ =>
      if accept then
        let newName := selKey ++ bs ++ zipExt
        let c0 := getContent w.src origName
        let src1 := renameFile w.src origName newName
        let res := rename_folder_in_zip (selKey ++ bs)
          { src := some c0, tmp := none } ev
        let c1 := res.2.src.getD c0
        let src2 := setName src1 newName c1
        let d := (lookupKey dict selKey).getD 0
        if containsName (w.dst d) newName then
          (false, { w with src := renameFile src2 newName origName })
        else
          (true, { src := removeName src2 newName
                 , dst := fun j =>
                     if j = d then (newName, c1) :: w.dst j else w.dst j })
      else (false, w)

/-- The concrete archive of the C1 counterexample: one member below the
top-level folder Foo第1巻. -/
def cxArchive : List Entry := [⟨"Foo第1巻/a.txt".toList, 1, 2, 0, [7]⟩]

/-- The concrete filesystem of the C1 counterexample: the archive in the
source directory, and the destination folder already holding the file
name the acceptance produces. -/
def cxWorld : World :=
  { src := [("Foo第1巻.zip".toList, FileContent.zip cxArchive)]
  , dst := fun _ => [("FooBar第1巻.zip".toList, FileContent.junk)] }

/-! ## Sanity checks on concrete inputs -/

example : extract_title "Foo第1巻".toList = ("Foo".toList, "第1巻".toList) := by decide
example : extract_title "Foo第12巻おまけ".toList = ("Foo".toList, "第12巻おまけ".toList) := by
  decide
example : extract_title " Foo ".toList = ("Foo".toList, []) := by decide
example : extract_title "Foo 1巻".toList = ("Foo 1巻".toList, []) := by decide
example : extract_title "第1巻".toList = ("第1巻".toList, []) := by decide
example : extract_title [] = ([], []) := by decide
example : extract_title ['\n'] = (['\n'], []) := by decide

example : main_book_title "Foo12巻".toList = "Foo".toList := by decide
example : main_book_title "Foo第1巻".toList = "Foo第".toList := by decide
example : main_book_title "Foo 1巻".toList = "Foo".toList := by decide
example : move_book_title "Foo 1巻".toList = "Foo 1巻".toList := by decide

/-! ## Lemmas about the title extractor -/

theorem takeWhile_all_cons (p : Char → Bool) (xs : List Char) (x : Char)
    (r : List Char) (h : ∀ c ∈ xs, p c = true) (hx : p x = false) :
    (xs ++ x :: r).takeWhile p = xs ∧ (xs ++ x :: r).dropWhile p = x :: r := by
  induction xs with
  | nil => simp [List.takeWhile_cons, List.dropWhile_cons, hx]
  | cons a as ih =>
    have ha : p a = true := h a (by simp)
    have hrest : ∀ c ∈ as, p c = true := fun c hc => h c (by simp [hc])
    obtain ⟨h1, h2⟩ := ih hrest
    simp [List.takeWhile_cons, List.dropWhile_cons, ha, h1, h2]

theorem takeWhile_ne_nl (u : List Char) (h : '\n' ∉ u) :
    u.takeWhile (fun c => c != '\n') = u := by
  induction u with
  | nil => rfl
  | cons c rest ih =>
    have hc : c ≠ '\n' := fun hcc => h (by simp [hcc])
    have : '\n' ∉ rest := fun hm => h (by simp [hm])
    simp [List.takeWhile_cons, bne_iff_ne, hc, ih this]

theorem tailOK_of_ne_nl (u : List Char) (h : '\n' ∉ u) : tailOK u = true := by
  induction u with
  | nil => rfl
  | cons c rest ih =>
    cases rest with
    | nil => rfl
    | cons d rest' =>
      have hc : c ≠ '\n' := fun hcc => h (by simp [hcc])
      have hm : '\n' ∉ d :: rest' := fun hm => h (by simp at hm ⊢; tauto)
      simp [tailOK, bne_iff_ne, hc, ih hm]

theorem matchGroup2_marker (ds r : List Char) (hds : ds ≠ [])
    (hdig : ∀ c ∈ ds, isDigitC c = true) (hr : '\n' ∉ r) :
    matchGroup2 ('第' :: (ds ++ '巻' :: r)) = some ('第' :: (ds ++ '巻' :: r)) := by
  have hbr : isDigitC '巻' = false := by decide
  obtain ⟨h1, h2⟩ := takeWhile_all_cons isDigitC ds '巻' r hdig hbr
  simp only [matchGroup2, h1, h2]
  simp [hds, tailOK_of_ne_nl r hr, consumeDotStar, takeWhile_ne_nl r hr]

theorem reMatchFrom_skip (u : List Char) :
    ∀ (m g1rev : List Char), '\n' ∉ u →
    (∀ i, i < u.length → matchGroup2 ((u ++ m).drop i) = none) →
    reMatchFrom g1rev (u ++ m) = reMatchFrom (u.reverse ++ g1rev) m := by
  induction u with
  | nil => intro m g1rev _ _; simp
  | cons c u' ih =>
    intro m g1rev hnl hno
    have h0 : matchGroup2 (c :: (u' ++ m)) = none := by
      have := hno 0 (by simp)
      simpa using this
    have hc : c ≠ '\n' := fun hcc => hnl (by simp [hcc])
    have hnl' : '\n' ∉ u' := fun hm => hnl (by simp [hm])
    have hno' : ∀ i, i < u'.length → matchGroup2 ((u' ++ m).drop i) = none := by
      intro i hi
      have := hno (i + 1) (by simpa using Nat.succ_lt_succ hi)
      simpa using this
    rw [List.cons_append, reMatchFrom]
    simp only [h0, hc, if_false]
    rw [ih m (c :: g1rev) hnl' hno']
    congr 1
    simp

theorem extract_title_marker (t ds r : List Char) (ht : t ≠ [])
    (hds : ds ≠ []) (hdig : ∀ c ∈ ds, isDigitC c = true)
    (hnt : '\n' ∉ t) (hnr : '\n' ∉ r)
    (hfirst : ∀ i, i < t.length → 1 ≤ i →
      matchGroup2 ((t ++ '第' :: (ds ++ '巻' :: r)).drop i) = none) :
    extract_title (t ++ '第' :: (ds ++ '巻' :: r)) =
      (pyStrip t, '第' :: (ds ++ '巻' :: r)) := by
  obtain ⟨c, t', rfl⟩ : ∃ c t', t = c :: t' := by
    cases t with
    | nil => exact absurd rfl ht
    | cons c t' => exact ⟨c, t', rfl⟩
  have hc : c ≠ '\n' := fun hcc => hnt (by simp [hcc])
  have hnt' : '\n' ∉ t' := fun hm => hnt (by simp [hm])
  have hno' : ∀ i, i < t'.length →
      matchGroup2 ((t' ++ '第' :: (ds ++ '巻' :: r)).drop i) = none := by
    intro i hi
    have := hfirst (i + 1) (by simpa using Nat.succ_lt_succ hi)
      (Nat.succ_le_succ (Nat.zero_le i))
    simpa using this
  simp only [extract_title, pyTitleMatch, List.cons_append, hc, if_false]
  rw [reMatchFrom_skip t' ('第' :: (ds ++ '巻' :: r)) [c] hnt' hno']
  rw [reMatchFrom]
  rw [matchGroup2_marker ds r hds hdig hnr]
  simp

theorem extract_title_noMarker (s : List Char) (hnl : '\n' ∉ s)
    (hno : ∀ i, i < s.length → 1 ≤ i → matchGroup2 (s.drop i) = none) :
    extract_title s = (pyStrip s, []) := by
  cases s with
  | nil => rfl
  | cons c t =>
    have hc : c ≠ '\n' := fun hcc => hnl (by simp [hcc])
    have hnt : '\n' ∉ t := fun hm => hnl (by simp [hm])
    have hno' : ∀ i, i < t.length → matchGroup2 ((t ++ []).drop i) = none := by
      intro i hi
      have := hno (i + 1) (by simpa using Nat.succ_lt_succ hi)
        (Nat.succ_le_succ (Nat.zero_le i))
      simpa using this
    have hskip := reMatchFrom_skip t [] [c] hnt hno'
    rw [List.append_nil] at hskip
    simp only [extract_title, pyTitleMatch, hc, if_false]
    rw [hskip]
    simp [reMatchFrom]

theorem subVolEnd_id (s : List Char)
    (hno : ∀ i, i < s.length → volEndMatchLen (s.drop i) = none) :
    subVolEnd s = s := by
  induction s with
  | nil => rfl
  | cons c rest ih =>
    have h0 : volEndMatchLen (c :: rest) = none := by
      have := hno 0 (by simp)
      simpa using this
    have hno' : ∀ i, i < rest.length → volEndMatchLen (rest.drop i) = none := by
      intro i hi
      have := hno (i + 1) (by simpa using Nat.succ_lt_succ hi)
      simpa using this
    rw [subVolEnd, h0, ih hno']

/-! ## Lemmas about the archive folder renamer -/

theorem pySplit_ne_nil (l : List Char) : pySplit l ≠ [] := by
  cases l with
  | nil => simp [pySplit]
  | cons c rest =>
    rw [pySplit]
    by_cases hc : c = '/'
    · simp [hc]
    · simp only [hc, if_false]
      cases hps : pySplit rest with
      | nil => simp
      | cons p ps => simp

theorem pySplit_seg (seg rest : List Char) (h : '/' ∉ seg) :
    pySplit (seg ++ '/' :: rest) = seg :: pySplit rest := by
  induction seg with
  | nil => simp [pySplit]
  | cons c seg' ih =>
    have hc : c ≠ '/' := fun hcc => h (by simp [hcc])
    have h' : '/' ∉ seg' := fun hm => h (by simp [hm])
    rw [List.cons_append, pySplit]
    simp only [hc, if_false]
    rw [ih h']

theorem pyJoin_pySplit (l : List Char) : pyJoin (pySplit l) = l := by
  induction l with
  | nil => rfl
  | cons c rest ih =>
    rw [pySplit]
    by_cases hc : c = '/'
    · simp only [hc, if_pos rfl]
      cases hps : pySplit rest with
      | nil => exact absurd hps (pySplit_ne_nil rest)
      | cons p ps =>
        rw [hps] at ih
        simp [pyJoin, ih]
    · simp only [hc, if_false]
      cases hps : pySplit rest with
      | nil => exact absurd hps (pySplit_ne_nil rest)
      | cons p ps =>
        rw [hps] at ih
        cases ps with
        | nil => simpa [pyJoin] using congrArg (c :: ·) ih
        | cons q qs => simpa [pyJoin] using congrArg (c :: ·) ih

theorem pyJoin_cons_of_ne_nil (p : List Char) (ps : List (List Char))
    (h : ps ≠ []) : pyJoin (p :: ps) = p ++ '/' :: pyJoin ps := by
  cases ps with
  | nil => exact absurd rfl h
  | cons q qs => rfl

/-- The first path segment of a slash-containing path is replaced by the
new name. -/
theorem newEntryName_seg (nn seg rest : List Char) (h : '/' ∉ seg) :
    newEntryName nn (seg ++ '/' :: rest) = nn ++ '/' :: rest := by
  have hm : '/' ∈ seg ++ '/' :: rest := by simp
  rw [newEntryName, if_pos hm, pySplit_seg seg rest h]
  have hlen : (seg :: pySplit rest).length > 1 := by
    have := pySplit_ne_nil rest
    cases hps : pySplit rest with
    | nil => exact absurd hps this
    | cons p ps => simp
  rw [if_pos hlen]
  simp only [List.tail_cons]
  rw [pyJoin_cons_of_ne_nil nn (pySplit rest) (pySplit_ne_nil rest)]
  rw [pyJoin_pySplit]

theorem zipRead_nodup (a : List Entry) (e : Entry)
    (hnd : (a.map Entry.filename).Nodup) (he : e ∈ a) :
    zipRead a e.filename = e.data := by
  induction a with
  | nil => cases he
  | cons h t ih =>
    rw [List.map_cons, List.nodup_cons] at hnd
    by_cases hfn : h.filename = e.filename
    · have hte : ∀ x ∈ t, ¬ (x.filename = e.filename) := by
        intro x hx hxe
        exact hnd.1 (hfn ▸ hxe ▸ List.mem_map_of_mem Entry.filename hx)
      have hft : t.filter (fun x => decide (x.filename = e.filename)) = [] :=
        List.filter_eq_nil_iff.mpr (fun x hx => by simpa using hte x hx)
      have heq : e = h := by
        cases he with
        | head => rfl
        | tail _ hmem => exact absurd rfl (hte e hmem)
      rw [zipRead, List.filter_cons_of_pos (by simp [hfn]), hft]
      simp [heq]
    · have hmem : e ∈ t := by
        cases he with
        | head => exact absurd rfl hfn
        | tail _ hmem => exact hmem
      have hstep : zipRead (h :: t) e.filename = zipRead t e.filename := by
        rw [zipRead, zipRead, List.filter_cons_of_neg (by simp [hfn])]
      rw [hstep]
      exact ih hnd.2 hmem

/-- On archives with pairwise-distinct entry names the renamer acts
entrywise. -/
theorem renameArchive_eq_map (nn : Name) (a : List Entry)
    (hnd : (a.map Entry.filename).Nodup) :
    renameArchive nn a = a.map (simpleRename nn) := by
  rw [renameArchive]
  apply List.map_congr_left
  intro e he
  rw [renameEntry, simpleRename]
  by_cases hd : isDirName e.filename
  · simp [hd]
  · simp [hd, zipRead_nodup a e hnd he]

theorem isDirName_seg (x r : List Char) :
    isDirName (x ++ '/' :: r) = isDirName ('/' :: r) := by
  rw [isDirName, isDirName, List.getLast?_append_of_ne_nil x (by simp)]

/-- The names of an archive whose entries all live below one top-level
folder stay pairwise distinct after the folder is renamed. -/
theorem nodup_names_after_rename (A B : Name) (a : List Entry)
    (hA : '/' ∉ A)
    (hseg : ∀ e ∈ a, ∃ r, e.filename = A ++ '/' :: r)
    (hnd : (a.map Entry.filename).Nodup) :
    ((a.map (simpleRename B)).map Entry.filename).Nodup := by
  have hmm : (a.map (simpleRename B)).map Entry.filename
      = (a.map Entry.filename).map (newEntryName B) := by
    rw [List.map_map, List.map_map]
    apply List.map_congr_left
    intro e _
    rfl
  rw [hmm]
  apply hnd.map_on
  intro n1 h1 n2 h2 heq
  obtain ⟨e1, he1, rfl⟩ := List.mem_map.mp h1
  obtain ⟨e2, he2, rfl⟩ := List.mem_map.mp h2
  obtain ⟨r1, hr1⟩ := hseg e1 he1
  obtain ⟨r2, hr2⟩ := hseg e2 he2
  rw [hr1, hr2, newEntryName_seg B A r1 hA, newEntryName_seg B A r2 hA] at heq
  have hcons : ('/' : Char) :: r1 = '/' :: r2 := List.append_cancel_left heq
  rw [hr1, hr2, show r1 = r2 from List.cons_injective hcons]

/-! ## Lemmas about the filesystem model -/

theorem lookupName_cons_self (fs : List (Name × FileContent)) (n : Name)
    (c : FileContent) : lookupName ((n, c) :: fs) n = some c := by
  simp [lookupName]

theorem lookupName_removeName_self (fs : List (Name × FileContent))
    (n : Name) : lookupName (removeName fs n) n = none := by
  induction fs with
  | nil => rfl
  | cons p rest ih =>
    obtain ⟨m, c⟩ := p
    rw [removeName]
    by_cases hm : m = n
    · simpa [hm] using ih
    · rw [if_neg hm, lookupName, if_neg hm]
      exact ih

theorem getContent_of_lookup (fs : List (Name × FileContent)) (n : Name)
    (c : FileContent) (h : lookupName fs n = some c) : getContent fs n = c := by
  rw [getContent, h, Option.getD_some]

/-- On every failure rename_folder_in_zip reports false, removes the
temporary file and leaves the source untouched. -/
theorem rename_folder_in_zip_fail (nn : Name) (s : FState) (ev : RenameEvent)
    (h : (rename_folder_in_zip nn s ev).1 = false) :
    (rename_folder_in_zip nn s ev).2.src = s.src ∧
    (rename_folder_in_zip nn s ev).2.tmp = none := by
  match hs : s.src with
  | none => simp [rename_folder_in_zip, hs]
  | some FileContent.junk => simp [rename_folder_in_zip, hs]
  | some (FileContent.zip a) =>
    cases ev with
    | destNotWritable => simp [rename_folder_in_zip, hs]
    | errAt i =>
      by_cases hi : i < a.length
      · simp [rename_folder_in_zip, hs, hi]
      · rw [rename_folder_in_zip] at h
        simp [hs, hi] at h
    | finalizeErr => simp [rename_folder_in_zip, hs]
    | ok =>
      rw [rename_folder_in_zip] at h
      simp [hs] at h

/-! ## Claim theorems -/

/-- C2: for every input on which rename_folder_in_zip fails (missing or
invalid source, destination not writable, an error reading or writing an
entry, or an error finalizing), it returns false, the temporary file is
removed, and the source archive is left fully intact; on success the
temporary file replaces the original, which now holds the rewritten
archive. -/
theorem C2_rename_failure_safety (nn : Name) (s : FState) (ev : RenameEvent) :
    (rename_folder_in_zip nn s ev).2.tmp = none ∧
    ((rename_folder_in_zip nn s ev).1 = false →
      (rename_folder_in_zip nn s ev).2.src = s.src) ∧
    ((rename_folder_in_zip nn s ev).1 = true →
      ∃ a, s.src = some (FileContent.zip a) ∧
        (rename_folder_in_zip nn s ev).2.src
          = some (FileContent.zip (renameArchive nn a))) := by
  match hs : s.src with
  | none => simp [rename_folder_in_zip, hs]
  | some FileContent.junk => simp [rename_folder_in_zip, hs]
  | some (FileContent.zip a) =>
    cases ev with
    | destNotWritable => simp [rename_folder_in_zip, hs]
    | errAt i =>
      by_cases hi : i < a.length
      · simp [rename_folder_in_zip, hs, hi]
      · refine ⟨by simp [rename_folder_in_zip, hs, hi], ?_, ?_⟩
        · intro h
          rw [rename_folder_in_zip] at h
          simp [hs, hi] at h
        · intro _
          exact ⟨a, rfl, by simp [rename_folder_in_zip, hs, hi]⟩
    | finalizeErr => simp [rename_folder_in_zip, hs]
    | ok =>
      refine ⟨by simp [rename_folder_in_zip, hs], ?_, ?_⟩
      · intro h
        rw [rename_folder_in_zip] at h
        simp [hs] at h
      · intro _
        exact ⟨a, rfl, by simp [rename_folder_in_zip, hs]⟩

theorem C2_rename_failure_safety_witness :
    (rename_folder_in_zip "X".toList
      ⟨some FileContent.junk, some FileContent.junk⟩ RenameEvent.ok).2.tmp
        = none ∧
    (rename_folder_in_zip "X".toList
      ⟨some FileContent.junk, some FileContent.junk⟩ RenameEvent.ok).2.src
        = some FileContent.junk :=
  ⟨(C2_rename_failure_safety "X".toList
      ⟨some FileContent.junk, some FileContent.junk⟩ RenameEvent.ok).1,
   (C2_rename_failure_safety "X".toList
      ⟨some FileContent.junk, some FileContent.junk⟩ RenameEvent.ok).2.1
      (by decide)⟩

/-- C3 (amended): the extractor is total by construction; the volume
marker the code recognises is 第 followed by one or more digits followed
by 巻, and only at a positive position in a newline-free base name.  For
such names the title is the trimmed text before the first such marker and
the suffix starts with the marker; newline-free names with no such marker
yield an empty suffix and the trimmed full base name.  (The claim as
stated, with a marker of bare digits followed by 巻 and with no position
or newline proviso, is refuted by C3_counterexample.) -/
theorem C3_title_extractor :
    (∀ t ds r : List Char, t ≠ [] → ds ≠ [] →
      (∀ c ∈ ds, isDigitC c = true) → '\n' ∉ t → '\n' ∉ r →
      (∀ i, i < t.length → 1 ≤ i →
        matchGroup2 ((t ++ '第' :: (ds ++ '巻' :: r)).drop i) = none) →
      extract_title (t ++ '第' :: (ds ++ '巻' :: r))
        = (pyStrip t, '第' :: (ds ++ '巻' :: r))) ∧
    (∀ s : List Char, '\n' ∉ s →
      (∀ i, i < s.length → 1 ≤ i → matchGroup2 (s.drop i) = none) →
      extract_title s = (pyStrip s, [])) :=
  ⟨extract_title_marker, extract_title_noMarker⟩

theorem C3_title_extractor_witness :
    extract_title ("Fo".toList ++ '第' :: ("1".toList ++ '巻' :: "x".toList))
      = (pyStrip "Fo".toList, '第' :: ("1".toList ++ '巻' :: "x".toList)) ∧
    extract_title " Bar ".toList = (pyStrip " Bar ".toList, []) :=
  ⟨C3_title_extractor.1 "Fo".toList "1".toList "x".toList (by decide)
      (by decide) (by decide) (by decide) (by decide) (by decide),
   C3_title_extractor.2 " Bar ".toList (by decide) (by decide)⟩

/-- C3 counterexample: the base name Foo 1巻 contains the claim's marker
(digits immediately followed by 巻), yet the extractor returns the whole
name as the title and an empty suffix, because the code's pattern demands
a leading 第. -/
theorem C3_counterexample :
    strContains "Foo 1巻".toList "1巻".toList = true ∧
    (extract_title "Foo 1巻".toList).1 ≠ "Foo".toList ∧
    (extract_title "Foo 1巻".toList).2 = [] := by decide

/-- C4: on an exact index hit, a same-named file already present at the
destination yields false with the whole filesystem untouched (in
particular the source file and the destination file); otherwise the
archive is moved to the destination folder under its unchanged original
file name, with original content, and the call returns true. -/
theorem C4_exact_match (stem : Name) (dict : List (Name × Nat))
    (accept : Bool) (ev : RenameEvent) (w : World) (d : Nat) (c : FileContent)
    (hlk : lookupKey dict (extract_title stem).1 = some d)
    (hsrc : lookupName w.src (stem ++ zipExt) = some c) :
    (containsName (w.dst d) (stem ++ zipExt) = true →
      move_zip_file stem dict accept ev w = (false, w)) ∧
    (containsName (w.dst d) (stem ++ zipExt) = false →
      (move_zip_file stem dict accept ev w).1 = true ∧
      lookupName ((move_zip_file stem dict accept ev w).2.dst d)
        (stem ++ zipExt) = some c ∧
      lookupName (move_zip_file stem dict accept ev w).2.src
        (stem ++ zipExt) = none) := by
  constructor
  · intro hcont
    simp [move_zip_file, hlk, hcont]
  · intro hcont
    refine ⟨by simp [move_zip_file, hlk, hcont], ?_, ?_⟩
    · simp only [move_zip_file, hlk, hcont]
      simp [lookupName_cons_self, getContent_of_lookup w.src _ c hsrc]
    · simp only [move_zip_file, hlk, hcont]
      simp [lookupName_removeName_self]

theorem C4_exact_match_witness :
    (move_zip_file "Foo".toList [("Foo".toList, 5)] true RenameEvent.ok
      { src := [("Foo.zip".toList, FileContent.junk)]
      , dst := fun _ => [] }).1 = true :=
  ((C4_exact_match "Foo".toList [("Foo".toList, 5)] true RenameEvent.ok
      { src := [("Foo.zip".toList, FileContent.junk)], dst := fun _ => [] }
      5 FileContent.junk (by decide) (by decide)).2 (by decide)).1

theorem lookupName_removeName_ne (fs : List (Name × FileContent))
    (n m : Name) (h : m ≠ n) :
    lookupName (removeName fs n) m = lookupName fs m := by
  induction fs with
  | nil => rfl
  | cons p rest ih =>
    obtain ⟨k, c⟩ := p
    rw [removeName]
    by_cases hk : k = n
    · have hkm : ¬ (k = m) := fun hkm => h (by rw [← hkm]; exact hk)
      rw [if_pos hk, ih, lookupName, if_neg hkm]
    · rw [if_neg hk, lookupName, lookupName]
      by_cases hkm : k = m
      · rw [if_pos hkm, if_pos hkm]
      · rw [if_neg hkm, if_neg hkm]
        exact ih

/-- C8: when exact lookup fails, an empty candidate list yields false with
the filesystem untouched and a result independent of the dialog answer
(the dialog is not consulted); with candidates present, declining yields
false with the filesystem untouched. -/
theorem C8_no_match_and_decline (stem : Name) (dict : List (Name × Nat))
    (w : World)
    (hlk : lookupKey dict (extract_title stem).1 = none) :
    (matchingKeys dict (extract_title stem).1 = [] →
      ∀ accept ev, move_zip_file stem dict accept ev w = (false, w)) ∧
    (∀ ev, move_zip_file stem dict false ev w = (false, w)) := by
  constructor
  · intro hkeys accept ev
    simp [move_zip_file, hlk, hkeys]
  · intro ev
    cases hkeys : matchingKeys dict (extract_title stem).1 with
    | nil => simp [move_zip_file, hlk, hkeys]
    | cons selKey rest => simp [move_zip_file, hlk, hkeys]

theorem C8_no_match_and_decline_witness :
    move_zip_file "Zzz".toList [("FooBar".toList, 0)] true RenameEvent.ok
      { src := [("Zzz.zip".toList, FileContent.junk)], dst := fun _ => [] }
      = (false,
        { src := [("Zzz.zip".toList, FileContent.junk)], dst := fun _ => [] }) :=
  (C8_no_match_and_decline "Zzz".toList [("FooBar".toList, 0)]
      { src := [("Zzz.zip".toList, FileContent.junk)], dst := fun _ => [] }
      (by decide)).1 (by decide) true RenameEvent.ok

/-- C5: with no exact match, a nonempty candidate list and an accepted
gate, the committed title is the first candidate selKey; the archive is
renamed to selKey plus suffix plus extension, its internal top-level
folder is rewritten by the archive renamer with new name selKey plus
suffix, the renamed archive lands in the destination folder of selKey,
and the call returns true. -/
theorem C5_partial_accept_commits_first (stem : Name)
    (dict : List (Name × Nat)) (w : World) (selKey : Name)
    (rest : List Name) (d : Nat) (a : List Entry)
    (hlk : lookupKey dict (extract_title stem).1 = none)
    (hkeys : matchingKeys dict (extract_title stem).1 = selKey :: rest)
    (hsrc : lookupName w.src (stem ++ zipExt) = some (FileContent.zip a))
    (hd : lookupKey dict selKey = some d)
    (hcont : containsName (w.dst d)
      (selKey ++ ((extract_title stem).2 ++ zipExt)) = false) :
    (move_zip_file stem dict true RenameEvent.ok w).1 = true ∧
    lookupName ((move_zip_file stem dict true RenameEvent.ok w).2.dst d)
      (selKey ++ ((extract_title stem).2 ++ zipExt))
      = some (FileContent.zip
          (renameArchive (selKey ++ (extract_title stem).2) a)) ∧
    lookupName (move_zip_file stem dict true RenameEvent.ok w).2.src
      (selKey ++ ((extract_title stem).2 ++ zipExt)) = none := by
  have hc0 : getContent w.src (stem ++ zipExt) = FileContent.zip a :=
    getContent_of_lookup _ _ _ hsrc
  refine ⟨?_, ?_, ?_⟩
  · simp [move_zip_file, hlk, hkeys, hd, hcont, hc0, rename_folder_in_zip]
  · simp only [move_zip_file, hlk, hkeys, hd, hcont, hc0,
      rename_folder_in_zip, Option.getD_some]
    simp [hcont, lookupName_cons_self]
  · simp only [move_zip_file, hlk, hkeys, hd, hcont, hc0,
      rename_folder_in_zip, Option.getD_some]
    simp [hcont, lookupName_removeName_self]

theorem C5_partial_accept_commits_first_witness :
    (move_zip_file "Foo第1巻".toList [("FooBar".toList, 0)] true
      RenameEvent.ok
      { src := [("Foo第1巻.zip".toList,
          FileContent.zip [⟨"Foo第1巻/a.txt".toList, 1, 2, 3, [7]⟩])]
      , dst := fun _ => [] }).1 = true :=
  (C5_partial_accept_commits_first "Foo第1巻".toList
    [("FooBar".toList, 0)]
    { src := [("Foo第1巻.zip".toList,
        FileContent.zip [⟨"Foo第1巻/a.txt".toList, 1, 2, 3, [7]⟩])]
    , dst := fun _ => [] }
    "FooBar".toList [] 0 [⟨"Foo第1巻/a.txt".toList, 1, 2, 3, [7]⟩]
    (by decide) (by decide) (by decide) (by decide) (by decide)).1

/-- C9: when the gate is accepted and the internal-folder rename fails,
move_zip_file still performs the filename-level rename and the
conflict-checked move: the boolean outcome equals the absence of a
destination conflict, and in the no-conflict case the archive lands at
the destination with its original (untransformed) bytes.  The warning is
a log line outside the filesystem model. -/
theorem C9_rename_failure_is_best_effort (stem : Name)
    (dict : List (Name × Nat)) (ev : RenameEvent) (w : World)
    (selKey : Name) (rest : List Name) (d : Nat)
    (hlk : lookupKey dict (extract_title stem).1 = none)
    (hkeys : matchingKeys dict (extract_title stem).1 = selKey :: rest)
    (hd : lookupKey dict selKey = some d)
    (hfail : (rename_folder_in_zip (selKey ++ (extract_title stem).2)
      { src := some (getContent w.src (stem ++ zipExt)), tmp := none }
      ev).1 = false) :
    ((move_zip_file stem dict true ev w).1
      = !(containsName (w.dst d)
          (selKey ++ ((extract_title stem).2 ++ zipExt)))) ∧
    (containsName (w.dst d) (selKey ++ ((extract_title stem).2 ++ zipExt))
        = false →
      lookupName ((move_zip_file stem dict true ev w).2.dst d)
        (selKey ++ ((extract_title stem).2 ++ zipExt))
        = some (getContent w.src (stem ++ zipExt))) := by
  have hres := (rename_folder_in_zip_fail _ _ _ hfail).1
  constructor
  · by_cases hcont : containsName (w.dst d)
        (selKey ++ ((extract_title stem).2 ++ zipExt))
    · simp [move_zip_file, hlk, hkeys, hd, hcont]
    · simp [move_zip_file, hlk, hkeys, hd,
        Bool.not_eq_true _ ▸ hcont, hres]
  · intro hcont
    simp only [move_zip_file, hlk, hkeys, hd, hcont, hres,
      Option.getD_some]
    simp [hcont, lookupName_cons_self]

theorem C9_rename_failure_is_best_effort_witness :
    (move_zip_file "Foo第1巻".toList [("FooBar".toList, 0)] true
      RenameEvent.finalizeErr
      { src := [("Foo第1巻.zip".toList, FileContent.junk)]
      , dst := fun _ => [] }).1 = true :=
  (C9_rename_failure_is_best_effort "Foo第1巻".toList
      [("FooBar".toList, 0)] RenameEvent.finalizeErr
      { src := [("Foo第1巻.zip".toList, FileContent.junk)]
      , dst := fun _ => [] }
      "FooBar".toList [] 0
      (by decide) (by decide) (by decide) (by decide)).1.trans (by decide)

/-- C1 (amended): on a partial-match acceptance with a destination
conflict, move_zip_file returns false and renames the archive back to its
exact original file name at its original location — no file is left under
the new name and no destination folder changes — but the rollback covers
the file name only: the archive bytes stay whatever the internal-folder
rename left them, so the renamed internal top-level folder is NOT rolled
back.  (The claim's stronger reading, full restoration with no residue
including the internal folder name, is refuted by C1_counterexample.) -/
theorem C1_conflict_rollback (stem : Name) (dict : List (Name × Nat))
    (ev : RenameEvent) (w : World) (selKey : Name) (rest : List Name)
    (d : Nat) (c : FileContent)
    (hlk : lookupKey dict (extract_title stem).1 = none)
    (hkeys : matchingKeys dict (extract_title stem).1 = selKey :: rest)
    (hsrc : lookupName w.src (stem ++ zipExt) = some c)
    (hd : lookupKey dict selKey = some d)
    (hne : ¬ selKey ++ (extract_title stem).2 = stem)
    (hcont : containsName (w.dst d)
      (selKey ++ ((extract_title stem).2 ++ zipExt)) = true) :
    (move_zip_file stem dict true ev w).1 = false ∧
    lookupName (move_zip_file stem dict true ev w).2.src (stem ++ zipExt)
      = some ((rename_folder_in_zip (selKey ++ (extract_title stem).2)
          { src := some c, tmp := none } ev).2.src.getD c) ∧
    lookupName (move_zip_file stem dict true ev w).2.src
      (selKey ++ ((extract_title stem).2 ++ zipExt)) = none ∧
    (move_zip_file stem dict true ev w).2.dst = w.dst := by
  have hc0 : getContent w.src (stem ++ zipExt) = c :=
    getContent_of_lookup _ _ _ hsrc
  have hne2 : ¬ (stem ++ zipExt = selKey ++ ((extract_title stem).2 ++ zipExt)) := by
    intro hEq
    apply hne
    have h2 : (selKey ++ (extract_title stem).2) ++ zipExt = stem ++ zipExt := by
      rw [List.append_assoc]
      exact hEq.symm
    exact List.append_cancel_right h2
  refine ⟨?_, ?_, ?_, ?_⟩
  · simp [move_zip_file, hlk, hkeys, hd, hcont, hc0]
  · simp only [move_zip_file, hlk, hkeys, hd, hcont, hc0]
    simp [hcont, renameFile, setName, getContent, lookupName_cons_self]
  · simp only [move_zip_file, hlk, hkeys, hd, hcont, hc0]
    simp only [if_true, Bool.true_eq]
    simp [hcont, renameFile]
    rw [lookupName, if_neg hne2]
    rw [lookupName_removeName_ne _ _ _ (fun hEq => hne2 hEq.symm)]
    exact lookupName_removeName_self _ _
  · simp [move_zip_file, hlk, hkeys, hd, hcont, hc0]

theorem C1_conflict_rollback_witness :
    (move_zip_file "Foo第1巻".toList [("FooBar".toList, 0)] true
      RenameEvent.ok
      { src := [("Foo第1巻.zip".toList, FileContent.junk)]
      , dst := fun _ => [("FooBar第1巻.zip".toList, FileContent.junk)] }).1
      = false :=
  (C1_conflict_rollback "Foo第1巻".toList [("FooBar".toList, 0)]
      RenameEvent.ok
      { src := [("Foo第1巻.zip".toList, FileContent.junk)]
      , dst := fun _ => [("FooBar第1巻.zip".toList, FileContent.junk)] }
      "FooBar".toList [] 0 FileContent.junk
      (by decide) (by decide) (by decide) (by decide) (by decide)
      (by decide)).1

/-- C1 counterexample: on the conflict rollback the archive reappears
under its original file name, but its bytes are not the original ones —
the internal top-level folder keeps the new name FooBar第1巻, so the
archive IS left partially transformed, refuting the claim as stated. -/
theorem C1_counterexample :
    (move_zip_file "Foo第1巻".toList [("FooBar".toList, 0)] true
      RenameEvent.ok cxWorld).1 = false ∧
    lookupName (move_zip_file "Foo第1巻".toList [("FooBar".toList, 0)] true
      RenameEvent.ok cxWorld).2.src "Foo第1巻.zip".toList
      = some (FileContent.zip [⟨"FooBar第1巻/a.txt".toList, 1, 2, 0, [7]⟩]) ∧
    FileContent.zip [⟨"FooBar第1巻/a.txt".toList, 1, 2, 0, [7]⟩]
      ≠ FileContent.zip cxArchive := by decide

/-- C6 (amended): on archives whose entry names are pairwise distinct and
whose directory entries carry no data, rename_folder_in_zip acts
entrywise: every entry keeps its timestamp and compression method,
directory entries keep their external attributes, entry bytes are
preserved, and any path containing a separator has exactly its first
segment replaced by the new name.  (Without the distinct-name proviso the
byte-for-byte part fails, because entry bytes are read back by name:
see C6_counterexample.) -/
theorem C6_renamer_contract :
    (∀ (nn : Name) (a : List Entry), (a.map Entry.filename).Nodup →
      renameArchive nn a = a.map (simpleRename nn)) ∧
    (∀ (nn : Name) (a : List Entry),
      (∀ e ∈ a, isDirName e.filename = true → e.data = []) →
      (a.map (simpleRename nn)).map Entry.data = a.map Entry.data) ∧
    (∀ (nn seg rest : Name), '/' ∉ seg →
      newEntryName nn (seg ++ '/' :: rest) = nn ++ '/' :: rest) := by
  refine ⟨renameArchive_eq_map, ?_, newEntryName_seg⟩
  intro nn a hdir
  rw [List.map_map]
  apply List.map_congr_left
  intro e he
  show (simpleRename nn e).data = e.data
  rw [simpleRename]
  by_cases hd : isDirName e.filename
  · simp [hd, (hdir e he hd).symm]
  · simp [hd]

theorem C6_renamer_contract_witness :
    renameArchive "B".toList
        [⟨"A/".toList, 4, 5, 6, []⟩, ⟨"A/x".toList, 1, 2, 3, [9]⟩]
      = [⟨"B/".toList, 4, 5, 6, []⟩, ⟨"B/x".toList, 1, 2, 0, [9]⟩] := by
  have h := C6_renamer_contract.1 "B".toList
    [⟨"A/".toList, 4, 5, 6, []⟩, ⟨"A/x".toList, 1, 2, 3, [9]⟩] (by decide)
  rw [h]
  decide

/-- C6 counterexample: an archive holding two entries under the same path
A/x with different bytes.  The rewritten archive duplicates the bytes of
the last entry into both, so the first entry's bytes are not preserved
even though both paths are rewritten exactly as the claim demands. -/
theorem C6_counterexample :
    (renameArchive "B".toList
        [⟨"A/x".toList, 0, 0, 0, [1]⟩, ⟨"A/x".toList, 0, 0, 0, [2]⟩]).map
        Entry.data
      ≠ [⟨"A/x".toList, 0, 0, 0, [1]⟩,
         ⟨"A/x".toList, 0, 0, 0, [2]⟩].map Entry.data ∧
    (renameArchive "B".toList
        [⟨"A/x".toList, 0, 0, 0, [1]⟩, ⟨"A/x".toList, 0, 0, 0, [2]⟩]).map
        Entry.filename
      = ["B/x".toList, "B/x".toList] := by decide

/-- C7: on a well-formed archive — pairwise-distinct entry names, every
entry below the single top-level folder A, directory entries carrying no
data — renaming the internal folder to B (B a folder name, no separator)
and then back to A reproduces the entry paths and the entry bytes
exactly. -/
theorem C7_rename_roundtrip (A B : Name) (a : List Entry)
    (hA : '/' ∉ A) (hB : '/' ∉ B)
    (hseg : ∀ e ∈ a, ∃ r, e.filename = A ++ '/' :: r)
    (hnd : (a.map Entry.filename).Nodup)
    (hdir : ∀ e ∈ a, isDirName e.filename = true → e.data = []) :
    (renameArchive A (renameArchive B a)).map Entry.filename
      = a.map Entry.filename ∧
    (renameArchive A (renameArchive B a)).map Entry.data
      = a.map Entry.data := by
  have h1 : renameArchive B a = a.map (simpleRename B) :=
    renameArchive_eq_map B a hnd
  have hnd' : ((a.map (simpleRename B)).map Entry.filename).Nodup :=
    nodup_names_after_rename A B a hA hseg hnd
  have h2 : renameArchive A (a.map (simpleRename B))
      = (a.map (simpleRename B)).map (simpleRename A) :=
    renameArchive_eq_map A _ hnd'
  rw [h1, h2]
  simp only [List.map_map]
  constructor
  · apply List.map_congr_left
    intro e he
    obtain ⟨r, hr⟩ := hseg e he
    show (simpleRename A (simpleRename B e)).filename = e.filename
    rw [simpleRename, simpleRename]
    simp only [hr, newEntryName_seg B A r hA, newEntryName_seg A B r hB]
  · apply List.map_congr_left
    intro e he
    obtain ⟨r, hr⟩ := hseg e he
    show (simpleRename A (simpleRename B e)).data = e.data
    rw [simpleRename, simpleRename]
    simp only [hr, newEntryName_seg B A r hA, isDirName_seg]
    by_cases hd : isDirName ('/' :: r)
    · simp [hd, (hdir e he (by rw [hr, isDirName_seg]; exact hd)).symm]
    · simp [hd]

theorem C7_rename_roundtrip_witness :
    (renameArchive "A".toList (renameArchive "B".toList
        [⟨"A/".toList, 4, 5, 6, []⟩, ⟨"A/x".toList, 1, 2, 3, [9]⟩])).map
        Entry.filename
      = ["A/".toList, "A/x".toList] ∧
    (renameArchive "A".toList (renameArchive "B".toList
        [⟨"A/".toList, 4, 5, 6, []⟩, ⟨"A/x".toList, 1, 2, 3, [9]⟩])).map
        Entry.data
      = [[], [9]] :=
  by
  have h := C7_rename_roundtrip "A".toList "B".toList
    [⟨"A/".toList, 4, 5, 6, []⟩, ⟨"A/x".toList, 1, 2, 3, [9]⟩]
    (by decide) (by decide)
    (by
      intro e he
      simp only [List.mem_cons, List.not_mem_nil, or_false] at he
      rcases he with h1 | h2
      · exact ⟨"".toList ++ [], by rw [h1]; decide⟩
      · exact ⟨"x".toList, by rw [h2]; decide⟩)
    (by decide) (by decide)
  exact ⟨h.1.trans (by decide), h.2.trans (by decide)⟩

/-- C10 (amended): the legacy entry point of main.py and move_zip_file
compute the same title — the trimmed base name — for newline-free base
names that contain no 第-digits-巻 marker at a positive position and no
digits-巻 token at the end.  On names carrying the code's marker the two
disagree, because main.py strips only the digits-巻 tail and keeps the 第:
see C10_counterexample. -/
theorem C10_entry_points_agree (s : List Char) (hnl : '\n' ∉ s)
    (hno : ∀ i, i < s.length → 1 ≤ i → matchGroup2 (s.drop i) = none)
    (hvol : ∀ i, i < s.length → volEndMatchLen (s.drop i) = none) :
    main_book_title s = move_book_title s := by
  rw [main_book_title, subVolEnd_id s hvol, move_book_title,
    extract_title_noMarker s hnl hno]

theorem C10_entry_points_agree_witness :
    main_book_title " Foo Bar ".toList = move_book_title " Foo Bar ".toList :=
  C10_entry_points_agree " Foo Bar ".toList (by decide) (by decide)
    (by decide)

/-- C10 counterexample: on the ordinary volume name Foo第1巻 the legacy
entry point keeps the 第 (title Foo第) while move_zip_file strips the
whole marker (title Foo), so the two shipped entry points resolve the
same archive to different exact-match index keys. -/
theorem C10_counterexample :
    main_book_title "Foo第1巻".toList = "Foo第".toList ∧
    move_book_title "Foo第1巻".toList = "Foo".toList ∧
    main_book_title "Foo第1巻".toList ≠ move_book_title "Foo第1巻".toList := by
  decide

end MangaOrganizer
